import Mathlib

/-!
Verification development for the Accelergy ADC plug-in.

This file gives a shallow embedding of the plug-in's characterization-model
predictor (src/model.py, src/headers.py) and of the ADC-sharing optimizer
(src/optimizer.py), and proves properties of the embedded program.

Conventions of the embedding:
- Python floats are modelled as real numbers; functions such as math.exp,
  math.log and 10 ** x become Real.exp, Real.log and real rpow.
- Python dictionaries with a fixed schema become structures; dictionaries
  whose key sets matter dynamically (the params / area-coefficient dicts of
  get_area) become association lists over String.
- A Python function that can raise becomes a function into Option; `none`
  stands for an uncaught exception (assertion failure, KeyError, ...).
- math.log is partial in Python (it raises on non-positive input); Real.log
  is total. Theorems whose inputs would reach math.log carry positivity
  hypotheses so that the embedded and the concrete behaviour agree.
-/

namespace ADC

/-! ### Column-name constants, from src/headers.py -/

def FREQ : String := "frequency (Hz)"

def TECH : String := "tech node (nm)"

def ENOB : String := "number of bits"

def AREA : String := "area (um^2)"

def ENRG : String := "energy (pJ/op)"

def FOMS : String := "FOMS_hf [dB]"

def INTERCEPT : String := "intercept"

def DESIGN_PARAMS : List String := [FREQ, TECH, ENOB]

def ALL_PARAMS : List String := DESIGN_PARAMS ++ [AREA, ENRG, FOMS]

/-- From src/headers.py, bits2sndr: SNDR of an ADC from its resolution.
Python's two-argument math.log(x, 10) is log x / log 10, i.e. Real.logb 10 x. -/
noncomputable def bits2sndr (bits : ℝ) : ℝ :=
  bits * 20 * Real.logb 10 2 + 10 * Real.logb 10 1.5

/-- From src/model.py, foms_sndr2energy: energy of an ADC from its Schreier
FOM and SNDR. -/
noncomputable def foms_sndr2energy (foms sndr : ℝ) : ℝ :=
  1 / ((10 : ℝ) ^ ((foms - sndr) / 10) * 2)

/-! ### The energy model dictionary (model[FREQ], model[FOMS]) -/

/-- Design parameters read by get_energy. As in the Python caller, frequency
and tech node are stored log-scaled; enob (resolution in bits) is linear. -/
structure DesignParams where
  freq : ℝ
  enob : ℝ
  tech : ℝ

/-- The model[FOMS] sub-dictionary produced by build_model. -/
structure FomsModel where
  intercept : ℝ
  freqSlope : ℝ
  maxByEnob : List ℝ
  techIntercept : ℝ
  techSlope : ℝ
  enobSlope : ℝ
  enrgResidual : ℝ

/-- The parts of the model dictionary read by get_energy:
model[FREQ][MAX] and model[FOMS]. -/
structure EnergyModel where
  freqMax : ℝ
  foms : FomsModel

/-- The index expression of src/model.py line 47-49:
max(min(math.ceil(params[ENOB]), len(foms_max_by_enob) - 1), 0). -/
noncomputable def clampCeil (enob : ℝ) (n : ℕ) : ℤ :=
  max (min (Int.ceil enob) ((n : ℤ) - 1)) 0

/-- Table lookup foms_max_by_enob[clampCeil ...]; the clamped index is a
valid position whenever the table is nonempty. -/
noncomputable def fomsMaxLookup (l : List ℝ) (enob : ℝ) : ℝ :=
  l.getD (clampCeil enob l.length).toNat 0

/-- The capped FOM of src/model.py lines 45-50:
foms = sum(params[k] * model[FOMS][k] for k in [INTERCEPT, FREQ]) with
params[INTERCEPT] = 1, then foms = min(foms, foms_max). -/
noncomputable def cappedFoms (p : DesignParams) (m : EnergyModel) : ℝ :=
  min (1 * m.foms.intercept + p.freq * m.foms.freqSlope)
    (fomsMaxLookup m.foms.maxByEnob p.enob)

/-- The value computed by the body of get_energy (src/model.py lines 45-58)
once the extrapolation assertion has passed. -/
noncomputable def get_energy_val (p : DesignParams) (m : EnergyModel) : ℝ :=
  foms_sndr2energy (cappedFoms p m) (bits2sndr p.enob) *
    Real.exp (m.foms.techIntercept + m.foms.techSlope * p.tech
      + m.foms.enobSlope * Real.log p.enob + m.foms.enrgResidual)

open Classical in
/-- From src/model.py, get_energy. Returns none exactly when the Python
function raises: the extrapolation assertion (params[FREQ] > model[FREQ][MAX]
with allow_extrapolation False), the math.log domain error for
params[ENOB] <= 0, or indexing an empty foms_max_by_enob table. When
extrapolation is allowed and the frequency exceeds the bound, the Python
function only logs a warning and still returns its value. -/
noncomputable def get_energy (p : DesignParams) (m : EnergyModel)
    (allow_extrapolation : Bool) : Option ℝ :=
  if allow_extrapolation = false ∧ m.freqMax < p.freq then none
  else if p.enob ≤ 0 then none
  else if m.foms.maxByEnob = [] then none
  else some (get_energy_val p m)

/-- Formula of the specification, stated in the spec's own words: FOM is
intercept plus frequency-slope times log-frequency, capped at
max_by_enob[clamp(ceil(resolution), 0, len(table)-1)]; the capped FOM is
converted to energy through the Schreier identity
energy = 1 / (2 * 10 ^ ((FOM - SNDR) / 10)) with
SNDR(bits) = 20 * bits * log10 2 + 10 * log10 1.5; the result is multiplied
by exp(tech_intercept + tech_slope * technology
+ enob_slope * log(resolution) + enrg_residual). -/
noncomputable def energySpec (p : DesignParams) (m : EnergyModel) : ℝ :=
  let fom := m.foms.intercept + m.foms.freqSlope * p.freq
  let idx := max 0 (min (Int.ceil p.enob) ((m.foms.maxByEnob.length : ℤ) - 1))
  let fomCapped := min fom (m.foms.maxByEnob.getD idx.toNat 0)
  let sndr := 20 * p.enob * Real.logb 10 2 + 10 * Real.logb 10 1.5
  (1 / (2 * (10 : ℝ) ^ ((fomCapped - sndr) / 10))) *
    Real.exp (m.foms.techIntercept + m.foms.techSlope * p.tech
      + m.foms.enobSlope * Real.log p.enob + m.foms.enrgResidual)

/-! ### The area predictor, from src/model.py get_area

The params and model[AREA] dictionaries are modelled as association lists
over String, because get_area's behaviour depends on their key sets. -/

/-- Dictionary assignment d[k] = v: overwrite the entry if the key is
present, append it otherwise. -/
def upsert (l : List (String × ℝ)) (k : String) (v : ℝ) : List (String × ℝ) :=
  if l.any (fun p => p.1 == k) then l.map (fun p => if p.1 == k then (k, v) else p)
  else l ++ [(k, v)]

/-- From src/model.py, get_area. The source copies params, sets
params[INTERCEPT] = 1 on the copy, asserts that every key of model[AREA]
is present in the copy (a subset check, not an equality check), and returns
exp of the sum over model[AREA] keys of params[k] * model[AREA][k].
Returns none exactly when the assertion fails. -/
noncomputable def get_area (params area : List (String × ℝ)) : Option ℝ :=
  let ps := upsert params INTERCEPT 1
  if area.all (fun kc => ps.any (fun p => p.1 == kc.1)) then
    some (Real.exp ((area.map (fun kc => ((ps.lookup kc.1).getD 0) * kc.2)).sum))
  else none

/-- Caller-level view of a get_area call: the returned value together with
the caller's params and model[AREA] dictionaries after the call. The source
copies params (params.copy()) and mutates only the copy, and only reads the
model, so the caller's dictionaries come back unchanged. -/
noncomputable def get_area_call (params area : List (String × ℝ)) :
    Option ℝ × List (String × ℝ) × List (String × ℝ) :=
  (get_area params area, params, area)

/-- Caller-level view of a get_energy call, with the caller's params
dictionary. The body reads params[FREQ], params[ENOB], params[TECH] from
the local copy (a missing key raises, hence none); the caller's dictionary
and the model come back unchanged. -/
noncomputable def get_energy_call (params : List (String × ℝ)) (m : EnergyModel)
    (ext : Bool) : Option ℝ × List (String × ℝ) × EnergyModel :=
  let ps := upsert params INTERCEPT 1
  ((match ps.lookup FREQ, ps.lookup ENOB, ps.lookup TECH with
    | some f, some b, some t => get_energy ⟨f, b, t⟩ m ext
    | _, _, _ => none), params, m)

/-! ### The tolerant Pareto filter, from src/model.py get_pareto -/

/-- Python round: nearest integer, ties to even. -/
def pythonRound (q : ℚ) : ℤ :=
  if q - Int.floor q < 1 / 2 then Int.floor q
  else if 1 / 2 < q - Int.floor q then Int.floor q + 1
  else if Int.floor q % 2 = 0 then Int.floor q else Int.floor q + 1

/-- From src/model.py get_pareto: more_value(a, b, pos) is a >= b when pos
and a <= b otherwise. The filter is polymorphic over the point type; the
source applies it to floats. -/
def more_value {α : Type} [LinearOrder α] (a b : α) (pos : Bool) : Bool :=
  if pos then decide (b ≤ a) else decide (a ≤ b)

/-- Indices chosen by get_pareto: index i is kept when
len(x) - #(j with x[i] >= x[j] or y[i] >= y[j]) < allow_interior_points
(comparisons under the positivity flags). -/
def pareto_chosen {α : Type} [LinearOrder α] [Inhabited α]
    (x y : List α) (x_positive y_positive : Bool)
    (allow_interior_points : ℤ) : List ℕ :=
  (List.range x.length).filter fun i =>
    decide ((x.length : ℤ) -
      ((List.range x.length).countP fun j =>
        more_value (x.getD i default) (x.getD j default) x_positive ||
        more_value (y.getD i default) (y.getD j default) y_positive)
      < allow_interior_points)

/-- From src/model.py, get_pareto: asserts len(x) == len(y) (none on
failure) and returns the chosen subsequences of x and y. -/
def get_pareto {α : Type} [LinearOrder α] [Inhabited α]
    (x y : List α) (x_positive y_positive : Bool)
    (allow_interior_points : ℤ) : Option (List α × List α) :=
  if x.length = y.length then
    some ((pareto_chosen x y x_positive y_positive allow_interior_points).map
            (fun i => x.getD i default),
          (pareto_chosen x y x_positive y_positive allow_interior_points).map
            (fun i => y.getD i default))
  else none

/-- The tolerance budget build_model passes to get_pareto
(src/model.py line 164): round(len(freq_for_pareto) * 0.05). The binary
double 0.05 is modelled by the rational 5/100; for every list length below
ten (the range the claims quantify over) the rounded result is 0 under
either reading. -/
def build_model_pareto_budget (n : ℕ) : ℤ := pythonRound ((n : ℚ) * (5 / 100))

/-- The get_pareto invocation of build_model (src/model.py lines 161-165):
default positivity flags, budget 5 percent of the candidate count. The
arguments are the outlier-filtered frequency and adjusted-FOM columns. -/
def build_model_pareto {α : Type} [LinearOrder α] [Inhabited α]
    (x y : List α) : Option (List α × List α) :=
  get_pareto x y true true (build_model_pareto_budget x.length)

/-- Number of other points strictly greater than point i in both
coordinates simultaneously (the spec's dominance count; j = i never
qualifies because the comparison is strict). -/
def strict_dominators {α : Type} [LinearOrder α] [Inhabited α]
    (x y : List α) (i : ℕ) : ℕ :=
  (List.range x.length).countP fun j =>
    decide (x.getD i default < x.getD j default) &&
    decide (y.getD i default < y.getD j default)

/-! ### build_model validation and the stored frequency bound -/

/-- Tabular survey input: the column names and, per row, the cell of each
column. A cell is some q when it holds a float (pandas stores numeric
columns as floats) and none when it holds a non-float value. -/
structure DataFrame where
  cols : List String
  rows : List (List (String × Option ℚ))

/-- Check isinstance(row[c], float) for one cell. -/
def cellIsFloat (row : List (String × Option ℚ)) (c : String) : Bool :=
  match row.lookup c with
  | some (some _) => true
  | _ => false

/-- The validation stage of build_model (src/model.py lines 119-125):
assert every required column is present, assert every required cell is a
float. The current builder performs no row-count check. -/
def build_model_validate (df : DataFrame) : Bool :=
  (ALL_PARAMS.all fun c => decide (c ∈ df.cols)) &&
  (df.rows.all fun row => ALL_PARAMS.all fun c => cellIsFloat row c)

/-- The validity bound stored by build_model (src/model.py line 156):
freq_max = np.log(1e10). The data-derived quantile expression is commented
out in the source, so the stored bound is this constant, whatever the
fitting data. -/
noncomputable def build_model_freq_max : ℝ := Real.log 1e10

/-- Modelled from the spec: the maximum log-frequency present in the
fitting data, from the log-frequency column. -/
noncomputable def specFreqMax (logFreq : List ℝ) : WithBot ℝ := logFreq.maximum

/-! ### The sharing optimizer, from src/optimizer.py

The Model class wraps the model dictionary and mutable design-parameter
state; it is embedded as an explicit state record threaded through the
methods. A method that can raise an AssertionError returns a success flag
(or an Option) alongside the post-mutation state, because Python mutates
the parameter fields before running the constraint checks. -/

/-- One CONSTRAINTS entry of the model file: its MIN and MAX values. -/
structure ParamRange where
  min : ℝ
  max : ℝ

/-- One DESIGN_PARAM_MODEL entry: coefficients for ENOB, TECH, FREQ and
the intercept. -/
structure ParamCoeffs where
  enob : ℝ
  tech : ℝ
  freq : ℝ
  intercept : ℝ

/-- The AREA_ENRG_TRADEOFF[CONSTRAINTS] entries of the model file. -/
structure TradeoffConstraints where
  areaMin : ℝ
  areaMax : ℝ
  enrgMin : ℝ
  enrgMax : ℝ

/-- The parts of the model dictionary the optimizer reads. -/
structure OptModelDict where
  tradeoffSlope : ℝ
  tradeoffIcpt : ℝ
  areaCoeffs : ParamCoeffs
  enrgCoeffs : ParamCoeffs
  enobRange : ParamRange
  techRange : ParamRange
  freqRange : ParamRange
  tradeoffCons : TradeoffConstraints

/-- Mutable state of a Model object: the loaded dictionary plus the fields
set by set_design_params (None-initialised in Python). -/
structure ModelState where
  dict : OptModelDict
  tradeoffIntercept : Option ℝ
  minArea : Option ℝ
  maxArea : Option ℝ
  minEnergy : Option ℝ
  maxEnergy : Option ℝ
  bits : Option ℝ
  tech : Option ℝ
  freq : Option ℝ

/-- A freshly constructed Model: every design-parameter field is None. -/
def initState (d : OptModelDict) : ModelState :=
  ⟨d, none, none, none, none, none, none, none, none⟩

/-- Model.get_area_offset as a function of the stored design parameters. -/
noncomputable def area_offset (d : OptModelDict) (b t f : ℝ) : ℝ :=
  d.areaCoeffs.enob * b + d.areaCoeffs.tech * t + d.areaCoeffs.freq * f
    + d.areaCoeffs.intercept

/-- Model.get_energy_offset as a function of the stored design
parameters. -/
noncomputable def energy_offset (d : OptModelDict) (b t f : ℝ) : ℝ :=
  d.enrgCoeffs.enob * b + d.enrgCoeffs.tech * t + d.enrgCoeffs.freq * f
    + d.enrgCoeffs.intercept

open Classical in
/-- From src/optimizer.py, Model.set_design_params. The parameter fields
are assigned first (tech and freq log-scaled); each parameter that was
actually passed is then range-checked unless allow_extrapolation holds; if
any stored parameter is still None the method returns early, otherwise the
min/max area and energy bounds and the tradeoff intercept are recomputed.
The Bool is false when a constraint assertion fires; the returned state
carries the parameter assignments made before the failing check. -/
noncomputable def set_design_params (s : ModelState) (bits tech freq : Option ℝ)
    (allow_extrapolation : Bool) : ModelState × Bool :=
  let bits' := match bits with | some b => some b | none => s.bits
  let tech' := match tech with | some t => some (Real.log t) | none => s.tech
  let freq' := match freq with | some f => some (Real.log f) | none => s.freq
  let s1 := { s with bits := bits', tech := tech', freq := freq' }
  if (bits = none ∨ allow_extrapolation = true ∨
        (s.dict.enobRange.min ≤ bits'.getD 0 ∧ bits'.getD 0 ≤ s.dict.enobRange.max)) ∧
     (tech = none ∨ allow_extrapolation = true ∨
        (s.dict.techRange.min ≤ tech'.getD 0 ∧ tech'.getD 0 ≤ s.dict.techRange.max)) ∧
     (freq = none ∨ allow_extrapolation = true ∨
        (s.dict.freqRange.min ≤ freq'.getD 0 ∧ freq'.getD 0 ≤ s.dict.freqRange.max)) then
    if bits' = none ∨ tech' = none ∨ freq' = none then (s1, true)
    else
      let ao := area_offset s.dict (bits'.getD 0) (tech'.getD 0) (freq'.getD 0)
      let eo := energy_offset s.dict (bits'.getD 0) (tech'.getD 0) (freq'.getD 0)
      ({ s1 with
          minArea := some (s.dict.tradeoffCons.areaMin + ao),
          maxArea := some (s.dict.tradeoffCons.areaMax + ao),
          minEnergy := some (s.dict.tradeoffCons.enrgMin + eo),
          maxEnergy := some (s.dict.tradeoffCons.enrgMax + eo),
          tradeoffIntercept :=
            some (s.dict.tradeoffIcpt + eo - ao * s.dict.tradeoffSlope) }, true)
  else (s1, false)

/-- From src/optimizer.py, Model.design_minmax_area: run set_design_params,
then return (exp min_area, exp max_area). The none result stands for the
propagated assertion failure. -/
noncomputable def design_minmax_area (s : ModelState) (bits tech freq : Option ℝ)
    (allow_extrapolation : Bool) : ModelState × Option (ℝ × ℝ) :=
  let sp := set_design_params s bits tech freq allow_extrapolation
  if sp.2 = true then
    (sp.1, some (Real.exp (sp.1.minArea.getD 0), Real.exp (sp.1.maxArea.getD 0)))
  else (sp.1, none)

/-- Python math.isclose with its default tolerances: rel_tol 1e-9,
abs_tol 0. -/
def isclose (a b : ℝ) : Prop :=
  |a - b| ≤ max (1e-9 * max |a| |b|) 0

open Classical in
/-- From src/optimizer.py, Model.pick_design. A truthy (nonzero) budget is
log-scaled and tightens the corresponding bound; the area is clamped into
its bounds, projected to energy along the tradeoff line, the energy is
clamped, area is re-resolved from the clamped energy, and the final
assertion checks the area against its bounds up to isclose. pick_design
reads the state and does not mutate it. A None area budget would raise in
Python (max(None, float)); optimize always passes one. -/
noncomputable def pick_design (s : ModelState)
    (area_budget energy_budget : Option ℝ) : Option (ℝ × ℝ) :=
  match area_budget with
  | none => none
  | some ab0 =>
    let ab := if ab0 = 0 then ab0 else Real.log ab0
    let maxArea0 := if ab0 = 0 then s.maxArea.getD 0 else min (s.maxArea.getD 0) ab
    let maxEnergy0 :=
      match energy_budget with
      | none => s.maxEnergy.getD 0
      | some eb0 =>
        if eb0 = 0 then s.maxEnergy.getD 0
        else min (s.maxEnergy.getD 0) (Real.log eb0)
    if s.minArea = none then none
    else
      let minArea0 := s.minArea.getD 0
      let area1 := min maxArea0 (max ab minArea0)
      let ti := s.tradeoffIntercept.getD 0
      let energy1 := ti + s.dict.tradeoffSlope * area1
      let energy := min maxEnergy0 (max energy1 (s.minEnergy.getD 0))
      let area := (energy - ti) / s.dict.tradeoffSlope
      if (area < maxArea0 ∨ isclose maxArea0 area) ∧
         (minArea0 < area ∨ isclose minArea0 area) then
        some (Real.exp area, Real.exp energy)
      else none

/-- From src/optimizer.py, the ADCRequest constructor arguments. -/
structure ADCRequest where
  bits : ℝ
  tech : ℝ
  channel_count : ℝ
  energy_area_tradeoff : ℝ
  max_share_count : ℕ
  adc_per_channel : ℕ
  channel_per_adc : ℕ
  latency : ℝ
  throughput : ℝ
  area_budget : Option ℝ
  energy_budget : Option ℝ
  allow_extrapolation : Bool

/-- The constructor assertions of ADCRequest: a latency or throughput
requirement is given (truthy), and exactly one of max_share_count,
adc_per_channel, channel_per_adc is nonzero. -/
def requestValid (r : ADCRequest) : Prop :=
  (r.latency ≠ 0 ∨ r.throughput ≠ 0) ∧
  ((if r.max_share_count = 0 then 1 else 0) +
   (if r.adc_per_channel = 0 then 1 else 0) +
   (if r.channel_per_adc = 0 then 1 else 0) = (2 : ℕ))

open Classical in
/-- The effective throughput of optimize: raised to 1/latency when a
positive latency bound is given. -/
noncomputable def optThroughput (r : ADCRequest) : ℝ :=
  if 0 < r.latency then max r.throughput (1 / r.latency) else r.throughput

/-- The candidate ADC counts optimize builds (src/optimizer.py lines
190-197): for each share ratio up to max_share_count both directions, plus
the adc_per_channel and channel_per_adc candidates when nonzero. Entries
are floats in Python; math.ceil yields an integer value. -/
noncomputable def n_adc_to_try (r : ADCRequest) : List ℝ :=
  ((List.range' 1 r.max_share_count).flatMap fun share =>
    [r.channel_count * (share : ℝ),
     ((Int.ceil (r.channel_count / (share : ℝ)) : ℤ) : ℝ)])
  ++ (if r.adc_per_channel ≠ 0 then
        [r.channel_count * (r.adc_per_channel : ℝ)] else [])
  ++ (if r.channel_per_adc ≠ 0 then
        [r.channel_count * (r.channel_per_adc : ℝ)] else [])

open Classical in
/-- The local function freq(n_adc) of optimize: ADCs sharing a channel run
at throughput times the ceiling ratio, channels sharing an ADC divide the
throughput by the floor ratio. -/
noncomputable def candFreq (r : ADCRequest) (tp n : ℝ) : ℝ :=
  if n < r.channel_count then tp * ((Int.ceil (r.channel_count / n) : ℤ) : ℝ)
  else tp / ((Int.floor (n / r.channel_count) : ℤ) : ℝ)

/-- The first loop of optimize: the absolute area range over the candidate
counts. The accumulator is none while min_area is still math.inf; a
per-candidate assertion failure is swallowed (try/except pass) and the
mutated model state is kept. -/
noncomputable def minmax_loop (r : ADCRequest) (tp : ℝ) :
    List ℝ → ModelState → Option (ℝ × ℝ) → ModelState × Option (ℝ × ℝ)
  | [], s, acc => (s, acc)
  | n :: ns, s, acc =>
    let dm := design_minmax_area s none none (some (candFreq r tp n)) false
    let acc' :=
      match dm.2 with
      | some lohi =>
        match acc with
        | none => some (lohi.1 * n, lohi.2 * n)
        | some mm => some (min mm.1 (lohi.1 * n), max mm.2 (lohi.2 * n))
      | none => acc
    minmax_loop r tp ns dm.1 acc'

/-- The target aggregate area of optimize: log-interpolation between the
global minimum and maximum achievable area with the tradeoff weight. -/
noncomputable def optTargetArea (r : ADCRequest) (mn mx : ℝ) : ℝ :=
  Real.exp (Real.log mn * (1 - r.energy_area_tradeoff)
    + Real.log mx * r.energy_area_tradeoff)

open Classical in
/-- The second loop of optimize: for each deduplicated candidate count set
the frequency, pick a design at the per-ADC area budget, and keep the
candidate when the best so far is unset or strictly beaten on energy
(storing area * n / channel_count, energy, n); a per-candidate assertion
failure is swallowed and the mutated model state is kept. -/
noncomputable def search_loop (r : ADCRequest) (tp ta : ℝ) :
    List ℝ → ModelState → Option (ℝ × ℝ × ℝ) → ModelState × Option (ℝ × ℝ × ℝ)
  | [], s, best => (s, best)
  | n :: ns, s, best =>
    let sp := set_design_params s none none (some (candFreq r tp n)) false
    if sp.2 = true then
      match pick_design sp.1 (some (ta / n)) r.energy_budget with
      | some ae =>
        if ∀ b ∈ best, ae.2 < b.2.1 then
          search_loop r tp ta ns sp.1 (some (ae.1 * n / r.channel_count, ae.2, n))
        else search_loop r tp ta ns sp.1 best
      | none => search_loop r tp ta ns sp.1 best
    else search_loop r tp ta ns sp.1 best

/-- The attributes ADCRequest.optimize sets. The source spells the first
one area_per_channnel. -/
structure OptResult where
  area_per_channnel : Option ℝ
  energy_per_op : Option ℝ
  adc_count : Option ℝ

/-- From src/optimizer.py, ADCRequest.optimize. Returns none when an
uncaught assertion fires: the initial set_design_params call (bits and
tech, outside any try) or the could-not-generate check after the first
loop. Otherwise returns the attributes (None fields when no candidate was
feasible in the second loop) and the final model state. Python iterates
list(set(...)) in unspecified order; the embedding deduplicates keeping
first occurrences, and the properties proved below are order-independent. -/
noncomputable def optimize (r : ADCRequest) (s : ModelState) :
    Option (OptResult × ModelState) :=
  let tp := optThroughput r
  let sp := set_design_params s (some r.bits) (some r.tech) none r.allow_extrapolation
  if sp.2 = true then
    let mm := minmax_loop r tp (n_adc_to_try r) sp.1 none
    match mm.2 with
    | none => none
    | some mnmx =>
      let ta := optTargetArea r mnmx.1 mnmx.2
      let res := search_loop r tp ta (n_adc_to_try r).dedup mm.1 none
      some (⟨res.2.map (fun b => b.1), res.2.map (fun b => b.2.1),
             res.2.map (fun b => b.2.2)⟩, res.1)
  else none

open Classical in
/-- Pure evaluation of one candidate count from a given model state: the
value the second loop of optimize computes for that candidate. -/
noncomputable def evalCandidate (r : ADCRequest) (tp ta : ℝ) (s : ModelState)
    (n : ℝ) : Option (ℝ × ℝ) :=
  let sp := set_design_params s none none (some (candFreq r tp n)) false
  if sp.2 = true then pick_design sp.1 (some (ta / n)) r.energy_budget else none

open Classical in
/-- Reference fold for the second loop of optimize: the pure per-candidate
evaluation replaces the threaded model state. -/
noncomputable def bestFold (f : ℝ → Option (ℝ × ℝ)) (cc : ℝ) :
    List ℝ → Option (ℝ × ℝ × ℝ) → Option (ℝ × ℝ × ℝ)
  | [], best => best
  | n :: ns, best =>
    match f n with
    | some ae =>
      if ∀ b ∈ best, ae.2 < b.2.1 then
        bestFold f cc ns (some (ae.1 * n / cc, ae.2, n))
      else bestFold f cc ns best
    | none => bestFold f cc ns best

/-- The feasible candidate counts of an optimize run: the deduplicated
candidates whose model evaluation succeeds. -/
noncomputable def feasibleCandidates (r : ADCRequest) (tp ta : ℝ)
    (s1 : ModelState) : List ℝ :=
  (n_adc_to_try r).dedup.filter fun n => (evalCandidate r tp ta s1 n).isSome

/-- The model state after the initial set_design_params call of optimize
(bits and tech, outside any try block). -/
noncomputable def optPreludeState (r : ADCRequest) (s0 : ModelState) : ModelState :=
  (set_design_params s0 (some r.bits) (some r.tech) none r.allow_extrapolation).1

/-- The area range optimize finds in its first loop. -/
noncomputable def optMinmax (r : ADCRequest) (s0 : ModelState) : Option (ℝ × ℝ) :=
  (minmax_loop r (optThroughput r) (n_adc_to_try r) (optPreludeState r s0) none).2

/-- A concrete request: 8 bits at 32 nm, one channel, min-area tradeoff,
share ratio at most one, throughput one op per channel per second. -/
noncomputable def exampleRequest : ADCRequest :=
  ⟨8, 32, 1, 0, 1, 0, 0, 0, 1, none, none, false⟩

/-- A concrete model dictionary: tradeoff slope -1, zero offsets, wide
parameter ranges. -/
noncomputable def exampleDict : OptModelDict :=
  ⟨-1, 0, ⟨0, 0, 0, 0⟩, ⟨0, 0, 0, 0⟩, ⟨-1000, 1000⟩, ⟨-1000, 1000⟩,
    ⟨-1000, 1000⟩, ⟨0, 0, 0, 0⟩⟩

/-- A concrete freshly loaded model state. -/
noncomputable def exampleState : ModelState := initState exampleDict

/-- The example state after the prelude call of optimize: bits and tech set,
frequency still unset. -/
noncomputable def examplePreState : ModelState :=
  ⟨exampleDict, none, none, none, none, none, some 8, some (Real.log 32), none⟩

/-- The example state once a candidate frequency of one op per second has
been set: every bound collapses to zero. -/
noncomputable def exampleRunState : ModelState :=
  ⟨exampleDict, some 0, some 0, some 0, some 0, some 0, some 8,
    some (Real.log 32), some 0⟩

/-! ## Theorems -/

/-- C1: for every design parameter set and model on which get_energy
returns (frequency within bounds or extrapolation allowed, positive
resolution, nonempty ceiling table), the returned energy is exactly the
spec's formula: FOM = intercept + slope * log-frequency capped at
max_by_enob[clamp(ceil(resolution), 0, len-1)], converted through the
Schreier identity with SNDR(bits) = 20 bits log10 2 + 10 log10 1.5, then
multiplied by the exponential bias correction. -/
theorem c1_get_energy_formula (p : DesignParams) (m : EnergyModel) (ext : Bool)
    (hfreq : p.freq ≤ m.freqMax ∨ ext = true) (henob : 0 < p.enob)
    (htab : m.foms.maxByEnob ≠ []) :
    get_energy p m ext = some (energySpec p m) := by
  have hnot : ¬(ext = false ∧ m.freqMax < p.freq) := by
    rcases hfreq with h | h
    · rintro ⟨-, h2⟩; exact absurd h (not_le.mpr h2)
    · rintro ⟨h1, -⟩; rw [h] at h1; simp at h1
  rw [get_energy, if_neg hnot, if_neg (not_le.mpr henob), if_neg htab]
  congr 1
  rw [get_energy_val, energySpec, cappedFoms, fomsMaxLookup, clampCeil,
    foms_sndr2energy, bits2sndr]
  have h1 : 1 * m.foms.intercept + p.freq * m.foms.freqSlope
      = m.foms.intercept + m.foms.freqSlope * p.freq := by ring
  have h2 : max (min (Int.ceil p.enob) ((m.foms.maxByEnob.length : ℤ) - 1)) 0
      = max 0 (min (Int.ceil p.enob) ((m.foms.maxByEnob.length : ℤ) - 1)) :=
    max_comm _ _
  have h3 : p.enob * 20 * Real.logb 10 2 + 10 * Real.logb 10 1.5
      = 20 * p.enob * Real.logb 10 2 + 10 * Real.logb 10 1.5 := by ring
  rw [h1, h2, h3, mul_comm ((10:ℝ) ^ _) 2]

/-- Witness for C1 at a concrete input. -/
theorem c1_get_energy_formula_witness :
    ((0:ℝ) ≤ 0 ∨ false = true) ∧ (0:ℝ) < 1 ∧ ([(0:ℝ)] ≠ []) ∧
    get_energy ⟨0, 1, 0⟩ ⟨0, ⟨0, 0, [0], 0, 0, 0, 0⟩⟩ false
      = some (energySpec ⟨0, 1, 0⟩ ⟨0, ⟨0, 0, [0], 0, 0, 0, 0⟩⟩) :=
  ⟨Or.inl le_rfl, by norm_num, by simp,
    c1_get_energy_formula ⟨0, 1, 0⟩ ⟨0, ⟨0, 0, [0], 0, 0, 0, 0⟩⟩ false
      (Or.inl le_rfl) (by norm_num) (by simp)⟩

/-- C3: with a positive resolution and a nonempty ceiling table, get_energy
fails when the log-frequency exceeds freq.max and extrapolation is off,
returns a value for the same input when extrapolation is on, and when the
log-frequency is at most freq.max it returns a value for either flag. -/
theorem c3_extrapolation_gate (p : DesignParams) (m : EnergyModel)
    (henob : 0 < p.enob) (htab : m.foms.maxByEnob ≠ []) :
    (m.freqMax < p.freq → get_energy p m false = none) ∧
    (m.freqMax < p.freq → ∃ e, get_energy p m true = some e) ∧
    (p.freq ≤ m.freqMax → ∀ ext, ∃ e, get_energy p m ext = some e) := by
  refine ⟨fun h => ?_, fun h => ?_, fun h ext => ?_⟩
  · rw [get_energy, if_pos ⟨rfl, h⟩]
  · exact ⟨_, by rw [get_energy, if_neg (by simp), if_neg (not_le.mpr henob),
      if_neg htab]⟩
  · refine ⟨get_energy_val p m, ?_⟩
    rw [get_energy, if_neg ?_, if_neg (not_le.mpr henob), if_neg htab]
    rintro ⟨-, h2⟩
    exact absurd h (not_le.mpr h2)

/-- Witness for C3 at a concrete input. -/
theorem c3_extrapolation_gate_witness :
    (0:ℝ) < 1 ∧ ([(0:ℝ)] ≠ []) ∧
    (((0:ℝ) < 1 → get_energy ⟨1, 1, 0⟩ ⟨0, ⟨0, 0, [0], 0, 0, 0, 0⟩⟩ false = none) ∧
     ((0:ℝ) < 1 → ∃ e, get_energy ⟨1, 1, 0⟩ ⟨0, ⟨0, 0, [0], 0, 0, 0, 0⟩⟩ true = some e) ∧
     ((1:ℝ) ≤ 0 → ∀ ext, ∃ e,
        get_energy ⟨1, 1, 0⟩ ⟨0, ⟨0, 0, [0], 0, 0, 0, 0⟩⟩ ext = some e)) :=
  ⟨by norm_num, by simp,
    c3_extrapolation_gate ⟨1, 1, 0⟩ ⟨0, ⟨0, 0, [0], 0, 0, 0, 0⟩⟩
      (by norm_num) (by simp)⟩

/-- C8: for a fixed resolution and technology, when the FOM ceiling binds
at both of two frequencies (the capped FOM equals the table value at each),
moving from the lower to the higher frequency does not decrease the energy
get_energy returns. -/
theorem c8_energy_monotone_capped (m : EnergyModel) (e t f1 f2 : ℝ)
    (henob : 0 < e) (htab : m.foms.maxByEnob ≠ []) (hf : f1 ≤ f2)
    (hc1 : cappedFoms ⟨f1, e, t⟩ m = fomsMaxLookup m.foms.maxByEnob e)
    (hc2 : cappedFoms ⟨f2, e, t⟩ m = fomsMaxLookup m.foms.maxByEnob e) :
    ∃ e1 e2, get_energy ⟨f1, e, t⟩ m true = some e1 ∧
      get_energy ⟨f2, e, t⟩ m true = some e2 ∧ e1 ≤ e2 := by
  refine ⟨get_energy_val ⟨f1, e, t⟩ m, get_energy_val ⟨f2, e, t⟩ m, ?_, ?_, ?_⟩
  · rw [get_energy, if_neg (by simp), if_neg (not_le.mpr henob), if_neg htab]
  · rw [get_energy, if_neg (by simp), if_neg (not_le.mpr henob), if_neg htab]
  · exact le_of_eq (by simp only [get_energy_val, hc1, hc2])

/-- Witness for C8 at a concrete input: slope 0, intercept 0, ceiling
table [-1], so the cap binds at every frequency. -/
theorem c8_energy_monotone_capped_witness :
    (0:ℝ) < 1 ∧ ([(-1:ℝ)] ≠ []) ∧ (0:ℝ) ≤ 1 ∧
    (cappedFoms ⟨0, 1, 0⟩ ⟨0, ⟨0, 0, [-1], 0, 0, 0, 0⟩⟩ = fomsMaxLookup [-1] 1) ∧
    (cappedFoms ⟨1, 1, 0⟩ ⟨0, ⟨0, 0, [-1], 0, 0, 0, 0⟩⟩ = fomsMaxLookup [-1] 1) ∧
    (∃ e1 e2, get_energy ⟨0, 1, 0⟩ ⟨0, ⟨0, 0, [-1], 0, 0, 0, 0⟩⟩ true = some e1 ∧
      get_energy ⟨1, 1, 0⟩ ⟨0, ⟨0, 0, [-1], 0, 0, 0, 0⟩⟩ true = some e2 ∧ e1 ≤ e2) :=
  ⟨by norm_num, by simp, by norm_num,
    by norm_num [cappedFoms, fomsMaxLookup, clampCeil],
    by norm_num [cappedFoms, fomsMaxLookup, clampCeil],
    c8_energy_monotone_capped ⟨0, ⟨0, 0, [-1], 0, 0, 0, 0⟩⟩ 1 0 0 1
      (by norm_num) (by simp) (by norm_num)
      (by norm_num [cappedFoms, fomsMaxLookup, clampCeil])
      (by norm_num [cappedFoms, fomsMaxLookup, clampCeil])⟩

/-- Key-set behaviour of upsert: a key is present in d after d[k0] = v
exactly when it is k0 or was present before. -/
theorem mem_keys_upsert (l : List (String × ℝ)) (k0 k : String) (v : ℝ) :
    ((upsert l k0 v).any (fun p => p.1 == k) = true) ↔
      (k = k0 ∨ l.any (fun p => p.1 == k) = true) := by
  rw [upsert]
  split
  case isTrue h =>
    simp only [List.any_eq_true, List.mem_map, beq_iff_eq] at h ⊢
    constructor
    · rintro ⟨p, ⟨q, hq, rfl⟩, hk⟩
      by_cases hq0 : q.1 = k0
      · simp [hq0] at hk
        exact Or.inl hk.symm
      · simp [hq0] at hk
        exact Or.inr ⟨q, hq, hk⟩
    · rintro (rfl | ⟨q, hq, hk⟩)
      · obtain ⟨q, hq, hq0⟩ := h
        exact ⟨(k, v), ⟨q, hq, by simp [hq0]⟩, rfl⟩
      · by_cases hq0 : q.1 = k0
        · obtain ⟨r, hr, hr0⟩ := h
          exact ⟨(k0, v), ⟨r, hr, by simp [hr0]⟩, by simp [← hq0, hk]⟩
        · exact ⟨q, ⟨q, hq, by simp [hq0]⟩, hk⟩
  case isFalse h =>
    simp only [List.any_eq_true, List.mem_append, List.mem_singleton, beq_iff_eq]
    constructor
    · rintro ⟨p, hp | rfl, hk⟩
      · exact Or.inr ⟨p, hp, hk⟩
      · exact Or.inl hk.symm
    · rintro (rfl | ⟨q, hq, hk⟩)
      · exact ⟨(k, v), Or.inr rfl, rfl⟩
      · exact ⟨q, Or.inl hq, hk⟩

/-- C2 counterexample: a query with exactly one extra key (ENOB) beyond the
model's area-coefficient keys succeeds, contrary to the claim that any key
mismatch fails. This mirrors the repository's own main block, which passes
params holding FREQ, ENOB, TECH, ENRG to get_area. -/
theorem c2_counterexample :
    ENOB ∈ ([(FREQ, 5), (TECH, 6), (ENOB, 7), (ENRG, 8)] :
        List (String × ℝ)).map Prod.fst ∧
    ENOB ∉ ([(TECH, 1), (FREQ, 2), (ENRG, 3), (INTERCEPT, 4)] :
        List (String × ℝ)).map Prod.fst ∧
    (get_area [(FREQ, 5), (TECH, 6), (ENOB, 7), (ENRG, 8)]
      [(TECH, 1), (FREQ, 2), (ENRG, 3), (INTERCEPT, 4)]).isSome = true := by
  refine ⟨by decide, by decide, ?_⟩
  rw [get_area]
  split
  case isTrue h => rfl
  case isFalse h => exact absurd (by decide) h

/-- C2 amended: get_area succeeds if and only if every key of the model's
area-coefficient dictionary other than the implicit intercept is present
among the query's parameter keys; a missing model key fails the assertion,
while extra query keys are tolerated (the check is key-subset, not
key-set equality). -/
theorem c2_area_key_check (params area : List (String × ℝ)) :
    (get_area params area).isSome = true ↔
      ∀ k ∈ area.map Prod.fst, k = INTERCEPT ∨ k ∈ params.map Prod.fst := by
  rw [get_area]
  split
  case isTrue h =>
    simp only [Option.isSome_some, true_iff]
    intro k hk
    simp only [List.all_eq_true] at h
    simp only [List.mem_map] at hk
    obtain ⟨kc, hkc, rfl⟩ := hk
    have hmem := h kc hkc
    rw [mem_keys_upsert] at hmem
    rcases hmem with h1 | h1
    · exact Or.inl h1
    · simp only [List.any_eq_true, beq_iff_eq] at h1
      obtain ⟨p, hp, hpk⟩ := h1
      exact Or.inr (List.mem_map.mpr ⟨p, hp, hpk⟩)
  case isFalse h =>
    simp only [Option.isSome_none, Bool.false_eq_true, false_iff]
    intro hall
    apply h
    simp only [List.all_eq_true]
    intro kc hkc
    rw [mem_keys_upsert]
    rcases hall kc.1 (List.mem_map.mpr ⟨kc, hkc, rfl⟩) with h1 | h1
    · exact Or.inl h1
    · simp only [List.any_eq_true, beq_iff_eq]
      obtain ⟨p, hp, hpk⟩ := List.mem_map.mp h1
      exact Or.inr ⟨p, hp, hpk⟩

/-- C9: the predictor calls are pure. A get_area or get_energy call hands
back the caller's params dictionary and model unchanged (the source mutates
only a local copy), and repeating the call on the handed-back state yields
the identical result. -/
theorem c9_predictor_purity (params area : List (String × ℝ))
    (m : EnergyModel) (ext : Bool) :
    ((get_area_call params area).2.1 = params ∧
     (get_area_call params area).2.2 = area ∧
     get_area_call (get_area_call params area).2.1 (get_area_call params area).2.2
       = get_area_call params area) ∧
    ((get_energy_call params m ext).2.1 = params ∧
     (get_energy_call params m ext).2.2 = m ∧
     get_energy_call (get_energy_call params m ext).2.1
         (get_energy_call params m ext).2.2 ext
       = get_energy_call params m ext) :=
  ⟨⟨rfl, rfl, rfl⟩, ⟨rfl, rfl, rfl⟩⟩

/-- Counting a predicate and its negation over a list covers the list. -/
theorem countP_add_countP_not {α : Type} (l : List α) (p : α → Bool) :
    l.countP p + l.countP (fun a => !p a) = l.length := by
  induction l with
  | nil => rfl
  | cons a t ih =>
    by_cases h : p a
    · simp [List.countP_cons, h, ← ih]; omega
    · simp [List.countP_cons, h, ← ih]; omega

/-- C4: with the default positivity flags, get_pareto keeps point i exactly
when the number of other points strictly greater than it in both
coordinates simultaneously is below the tolerance budget, and build_model
invokes the selection with a budget of 5 percent of the candidate count. -/
theorem c4_pareto_dominance (α : Type) [LinearOrder α] [Inhabited α]
    (x y : List α) (b : ℤ) (i : ℕ)
    (hlen : x.length = y.length) (hi : i < x.length) :
    (i ∈ pareto_chosen x y true true b ↔ (strict_dominators x y i : ℤ) < b) ∧
    build_model_pareto x y
      = get_pareto x y true true (build_model_pareto_budget x.length) := by
  refine ⟨?_, rfl⟩
  rw [pareto_chosen, List.mem_filter]
  have hmem : i ∈ List.range x.length := List.mem_range.mpr hi
  simp only [hmem, true_and, decide_eq_true_eq]
  have hsd : strict_dominators x y i
      = (List.range x.length).countP (fun j =>
          !(more_value (x.getD i default) (x.getD j default) true ||
            more_value (y.getD i default) (y.getD j default) true)) := by
    rw [strict_dominators]
    apply List.countP_congr
    intro j _
    simp [more_value, Bool.not_or, ← decide_not, not_le]
  have hcompl := countP_add_countP_not (List.range x.length)
    (fun j => more_value (x.getD i default) (x.getD j default) true ||
      more_value (y.getD i default) (y.getD j default) true)
  rw [← hsd, List.length_range] at hcompl
  omega

/-- Witness for C4 at a concrete input. -/
theorem c4_pareto_dominance_witness :
    ([(0 : ℚ), 1].length = [(0 : ℚ), 1].length) ∧ 0 < [(0 : ℚ), 1].length ∧
    ((0 ∈ pareto_chosen [(0 : ℚ), 1] [(0 : ℚ), 1] true true 1 ↔
        (strict_dominators [(0 : ℚ), 1] [(0 : ℚ), 1] 0 : ℤ) < 1) ∧
      build_model_pareto [(0 : ℚ), 1] [(0 : ℚ), 1]
        = get_pareto [(0 : ℚ), 1] [(0 : ℚ), 1] true true
            (build_model_pareto_budget [(0 : ℚ), 1].length)) :=
  ⟨rfl, by norm_num,
    c4_pareto_dominance ℚ [(0 : ℚ), 1] [(0 : ℚ), 1] 1 0 rfl (by norm_num)⟩

/-- The 5 percent budget is zero for every candidate count below ten. -/
theorem budget_zero_of_lt_ten (n : ℕ) (hn : n < 10) :
    build_model_pareto_budget n = 0 := by
  have h1 : (0:ℚ) ≤ (n:ℚ) * (5/100) := by positivity
  have h2 : (n:ℚ) * (5/100) < 1/2 := by
    have h9 : (n:ℚ) ≤ 9 := by exact_mod_cast Nat.le_of_lt_succ hn
    nlinarith
  have hf : Int.floor ((n:ℚ) * (5/100)) = 0 := by
    rw [Int.floor_eq_zero_iff]
    exact ⟨h1, by linarith⟩
  rw [build_model_pareto_budget, pythonRound, hf]
  rw [if_pos (by push_cast; linarith)]

/-- C10: a nonpositive tolerance budget makes get_pareto select no points
at all (a dominator count is never below zero), and in build_model the
Pareto stage selects an empty frontier whenever the filtered candidate set
has fewer than 10 rows, because round(0.05 * n) is then 0. -/
theorem c10_empty_frontier (α : Type) [LinearOrder α] [Inhabited α]
    (x y : List α) (hlen : x.length = y.length) :
    (∀ xp yp (b : ℤ), b ≤ 0 → get_pareto x y xp yp b = some ([], [])) ∧
    (x.length < 10 → build_model_pareto x y = some ([], [])) := by
  have hchosen : ∀ xp yp (b : ℤ), b ≤ 0 → pareto_chosen x y xp yp b = [] := by
    intro xp yp b hb
    rw [pareto_chosen, List.filter_eq_nil_iff]
    intro i _
    simp only [decide_eq_true_eq, not_lt]
    have hle : ((List.range x.length).countP fun j =>
        more_value (x.getD i default) (x.getD j default) xp ||
        more_value (y.getD i default) (y.getD j default) yp) ≤ x.length := by
      have hc := List.countP_le_length
        (p := fun j => more_value (x.getD i default) (x.getD j default) xp ||
          more_value (y.getD i default) (y.getD j default) yp)
        (l := List.range x.length)
      simpa using hc
    omega
  constructor
  · intro xp yp b hb
    rw [get_pareto, if_pos hlen, hchosen xp yp b hb]
    rfl
  · intro hn
    rw [build_model_pareto, get_pareto, if_pos hlen,
      hchosen true true _ (le_of_eq (budget_zero_of_lt_ten x.length hn))]
    rfl

/-- Witness for C10 at a concrete input. -/
theorem c10_empty_frontier_witness :
    ([(0 : ℚ), 1].length = [(1 : ℚ), 0].length) ∧
    ((∀ xp yp (b : ℤ), b ≤ 0 →
        get_pareto [(0 : ℚ), 1] [(1 : ℚ), 0] xp yp b = some ([], [])) ∧
     ([(0 : ℚ), 1].length < 10 →
        build_model_pareto [(0 : ℚ), 1] [(1 : ℚ), 0] = some ([], []))) :=
  ⟨rfl, c10_empty_frontier ℚ [(0 : ℚ), 1] [(1 : ℚ), 0] rfl⟩

/-- C5 counterexample: for fitting data whose log-frequency column is the
single value 0, the maximum log-frequency present in the data is 0, while
the bound build_model stores is the constant log(1e10), which is not 0. -/
theorem c5_counterexample :
    specFreqMax [(0 : ℝ)] = ((0 : ℝ) : WithBot ℝ) ∧ build_model_freq_max ≠ 0 := by
  constructor
  · simp [specFreqMax]
  · rw [build_model_freq_max]
    exact ne_of_gt (Real.log_pos (by norm_num))

/-- C5 amended: the freq.max value stored by build_model is the constant
log(1e10) = 10 log 10, independent of the fitting data (the data-derived
quantile is commented out in the source). -/
theorem c5_freq_max_constant : build_model_freq_max = 10 * Real.log 10 := by
  rw [build_model_freq_max, show (1e10 : ℝ) = 10 ^ (10 : ℕ) by norm_num,
    Real.log_pow]
  push_cast
  ring

/-- Float check of one required cell, unfolded to an existence statement. -/
theorem cellIsFloat_iff (row : List (String × Option ℚ)) (c : String) :
    cellIsFloat row c = true ↔ ∃ q, row.lookup c = some (some q) := by
  rw [cellIsFloat]
  split
  case h_1 q heq => simp [heq]
  case h_2 heq =>
    constructor
    · intro h
      exact absurd h (by simp)
    · rintro ⟨q, hq⟩
      exact absurd (heq q) (by simp [hq])

/-- C6 counterexample: a dataset with a single fully numeric row passes
the whole validation stage of the current build_model, so fewer than 2
usable rows does not produce a descriptive validation error. -/
theorem c6_counterexample :
    build_model_validate
      ⟨ALL_PARAMS,
       [[(FREQ, some 1), (TECH, some 1), (ENOB, some 1),
         (AREA, some 1), (ENRG, some 1), (FOMS, some 1)]]⟩ = true ∧
    (DataFrame.rows
      ⟨ALL_PARAMS,
       [[(FREQ, some 1), (TECH, some 1), (ENOB, some 1),
         (AREA, some 1), (ENRG, some 1), (FOMS, some 1)]]⟩).length < 2 := by
  constructor
  · decide
  · decide

/-- C6 amended: the current build_model validation fails exactly when a
required column is missing or some row holds a non-float value in a
required column; it performs no minimum-row-count check (that check exists
only in the legacy builder of src/old/model.py). -/
theorem c6_validate_iff (df : DataFrame) :
    build_model_validate df = true ↔
      ((∀ c ∈ ALL_PARAMS, c ∈ df.cols) ∧
       ∀ row ∈ df.rows, ∀ c ∈ ALL_PARAMS, ∃ q, row.lookup c = some (some q)) := by
  rw [build_model_validate, Bool.and_eq_true, List.all_eq_true, List.all_eq_true]
  constructor
  · rintro ⟨hcols, hrows⟩
    refine ⟨fun c hc => of_decide_eq_true (hcols c hc), fun row hrow c hc => ?_⟩
    have hr := hrows row hrow
    rw [List.all_eq_true] at hr
    exact (cellIsFloat_iff row c).mp (hr c hc)
  · rintro ⟨hcols, hrows⟩
    refine ⟨fun c hc => decide_eq_true (hcols c hc), fun row hrow => ?_⟩
    rw [List.all_eq_true]
    intro c hc
    exact (cellIsFloat_iff row c).mpr (hrows row hrow c hc)

/-- A set_design_params call that passes no bits and no tech leaves the
dictionary and the stored bits and tech unchanged. -/
theorem sdp_keeps (s : ModelState) (freq : Option ℝ) (ex : Bool) :
    (set_design_params s none none freq ex).1.dict = s.dict ∧
    (set_design_params s none none freq ex).1.bits = s.bits ∧
    (set_design_params s none none freq ex).1.tech = s.tech := by
  unfold set_design_params
  dsimp only
  split
  · split
    · exact ⟨rfl, rfl, rfl⟩
    · exact ⟨rfl, rfl, rfl⟩
  · exact ⟨rfl, rfl, rfl⟩

/-- A set_design_params call that passes bits and tech stores them (tech
log-scaled) whatever else happens, and keeps the dictionary. -/
theorem sdp_assigns (s : ModelState) (b0 t0 : ℝ) (ex : Bool) :
    (set_design_params s (some b0) (some t0) none ex).1.dict = s.dict ∧
    (set_design_params s (some b0) (some t0) none ex).1.bits = some b0 ∧
    (set_design_params s (some b0) (some t0) none ex).1.tech
      = some (Real.log t0) := by
  unfold set_design_params
  dsimp only
  split
  · split
    · exact ⟨rfl, rfl, rfl⟩
    · exact ⟨rfl, rfl, rfl⟩
  · exact ⟨rfl, rfl, rfl⟩

/-- design_minmax_area threads exactly the set_design_params state. -/
theorem dm_state (s : ModelState) (bits tech freq : Option ℝ) (ex : Bool) :
    (design_minmax_area s bits tech freq ex).1
      = (set_design_params s bits tech freq ex).1 := by
  rw [design_minmax_area]
  split <;> rfl

/-- The first loop of optimize leaves the dictionary and the stored bits
and tech unchanged. -/
theorem minmax_loop_keeps (r : ADCRequest) (tp : ℝ) :
    ∀ (ns : List ℝ) (s : ModelState) (acc : Option (ℝ × ℝ)),
      (minmax_loop r tp ns s acc).1.dict = s.dict ∧
      (minmax_loop r tp ns s acc).1.bits = s.bits ∧
      (minmax_loop r tp ns s acc).1.tech = s.tech := by
  intro ns
  induction ns with
  | nil => intro s acc; exact ⟨rfl, rfl, rfl⟩
  | cons n ns ih =>
    intro s acc
    rw [minmax_loop]
    obtain ⟨ihd, ihb, iht⟩ := ih ((design_minmax_area s none none
      (some (candFreq r tp n)) false).1) (match (design_minmax_area s none none
        (some (candFreq r tp n)) false).2 with
      | some lohi =>
        match acc with
        | none => some (lohi.1 * n, lohi.2 * n)
        | some mm => some (min mm.1 (lohi.1 * n), max mm.2 (lohi.2 * n))
      | none => acc)
    obtain ⟨kd, kb, kt⟩ := sdp_keeps s (some (candFreq r tp n)) false
    refine ⟨ihd.trans ?_, ihb.trans ?_, iht.trans ?_⟩
    · rw [dm_state]; exact kd
    · rw [dm_state]; exact kb
    · rw [dm_state]; exact kt

/-- Canonical form of a freq-only set_design_params call on a state whose
bits and tech are set: on success every recomputed field is a function of
the dictionary and the three design parameters alone. -/
theorem sdp_freq_some (s : ModelState) (f b t : ℝ)
    (hb : s.bits = some b) (ht : s.tech = some t) :
    set_design_params s none none (some f) false =
      if s.dict.freqRange.min ≤ Real.log f ∧ Real.log f ≤ s.dict.freqRange.max then
        ({ dict := s.dict,
           tradeoffIntercept := some (s.dict.tradeoffIcpt
             + energy_offset s.dict b t (Real.log f)
             - area_offset s.dict b t (Real.log f) * s.dict.tradeoffSlope),
           minArea := some (s.dict.tradeoffCons.areaMin
             + area_offset s.dict b t (Real.log f)),
           maxArea := some (s.dict.tradeoffCons.areaMax
             + area_offset s.dict b t (Real.log f)),
           minEnergy := some (s.dict.tradeoffCons.enrgMin
             + energy_offset s.dict b t (Real.log f)),
           maxEnergy := some (s.dict.tradeoffCons.enrgMax
             + energy_offset s.dict b t (Real.log f)),
           bits := some b, tech := some t, freq := some (Real.log f) }, true)
      else ({ s with freq := some (Real.log f) }, false) := by
  unfold set_design_params
  dsimp only
  rw [hb, ht]
  by_cases hc : s.dict.freqRange.min ≤ Real.log f ∧ Real.log f ≤ s.dict.freqRange.max
  · rw [if_pos hc,
      if_pos ⟨Or.inl rfl, Or.inl rfl, Or.inr (Or.inr (by simpa using hc))⟩,
      if_neg (by simp)]
    simp only [Option.getD_some]
  · rw [if_neg hc, if_neg ?_]
    rintro ⟨-, -, hch | hch | hch⟩
    · exact absurd hch (by simp)
    · exact absurd hch (by simp)
    · exact hc (by simpa using hch)

/-- The per-candidate evaluation of the second loop depends on the model
state only through the dictionary and the stored bits and tech. -/
theorem evalCandidate_congr (r : ADCRequest) (tp ta : ℝ) (s s2 : ModelState)
    (n b t : ℝ) (hd : s.dict = s2.dict) (hb : s.bits = some b)
    (hb2 : s2.bits = some b) (ht : s.tech = some t) (ht2 : s2.tech = some t) :
    evalCandidate r tp ta s n = evalCandidate r tp ta s2 n := by
  rw [evalCandidate, evalCandidate,
    sdp_freq_some s (candFreq r tp n) b t hb ht,
    sdp_freq_some s2 (candFreq r tp n) b t hb2 ht2, hd]
  by_cases hc : s2.dict.freqRange.min ≤ Real.log (candFreq r tp n) ∧
      Real.log (candFreq r tp n) ≤ s2.dict.freqRange.max
  · rw [if_pos hc, if_pos hc]
  · rw [if_neg hc, if_neg hc]
    simp

/-- The second loop of optimize computes the reference fold of the pure
per-candidate evaluation taken from any state that agrees on the dictionary
and the stored bits and tech. -/
theorem search_loop_eq_bestFold (r : ADCRequest) (tp ta : ℝ) (S : ModelState)
    (b t : ℝ) (hSb : S.bits = some b) (hSt : S.tech = some t) :
    ∀ (ns : List ℝ) (s : ModelState) (best : Option (ℝ × ℝ × ℝ)),
      s.dict = S.dict → s.bits = some b → s.tech = some t →
      (search_loop r tp ta ns s best).2
        = bestFold (evalCandidate r tp ta S) r.channel_count ns best := by
  intro ns
  induction ns with
  | nil => intro s best _ _ _; rfl
  | cons n ns ih =>
    intro s best hd hb ht
    obtain ⟨kd, kb, kt⟩ := sdp_keeps s (some (candFreq r tp n)) false
    have hcongr : evalCandidate r tp ta S n = evalCandidate r tp ta s n :=
      (evalCandidate_congr r tp ta s S n b t hd hb hSb ht hSt).symm
    simp only [search_loop, bestFold]
    by_cases hok : (set_design_params s none none (some (candFreq r tp n)) false).2
        = true
    · have heval : evalCandidate r tp ta S n
          = pick_design (set_design_params s none none (some (candFreq r tp n))
              false).1 (some (ta / n)) r.energy_budget := by
        rw [hcongr, evalCandidate, if_pos hok]
      rw [if_pos hok, heval]
      cases hpd : pick_design (set_design_params s none none
          (some (candFreq r tp n)) false).1 (some (ta / n)) r.energy_budget with
      | none =>
        exact ih _ best (kd.trans hd) (kb.trans hb) (kt.trans ht)
      | some ae =>
        dsimp only
        by_cases hbet : ∀ b0 ∈ best, ae.2 < b0.2.1
        · rw [if_pos hbet, if_pos hbet]
          exact ih _ _ (kd.trans hd) (kb.trans hb) (kt.trans ht)
        · rw [if_neg hbet, if_neg hbet]
          exact ih _ best (kd.trans hd) (kb.trans hb) (kt.trans ht)
    · have heval : evalCandidate r tp ta S n = none := by
        rw [hcongr, evalCandidate, if_neg hok]
      rw [if_neg hok, heval]
      exact ih _ best (kd.trans hd) (kb.trans hb) (kt.trans ht)

/-- Behaviour of the reference fold: it returns none exactly when it
started empty-handed and no candidate evaluates, and a returned triple
comes from the initial value or a successful candidate and carries a
minimal energy. -/
theorem bestFold_spec (f : ℝ → Option (ℝ × ℝ)) (cc : ℝ) :
    ∀ (ns : List ℝ) (best : Option (ℝ × ℝ × ℝ)),
      (bestFold f cc ns best = none ↔ (best = none ∧ ∀ n ∈ ns, f n = none)) ∧
      (∀ a e n, bestFold f cc ns best = some (a, e, n) →
        (best = some (a, e, n) ∨
          (n ∈ ns ∧ ∃ ae, f n = some ae ∧ a = ae.1 * n / cc ∧ e = ae.2)) ∧
        (∀ b0 ∈ best, e ≤ b0.2.1) ∧
        (∀ m ∈ ns, ∀ ae, f m = some ae → e ≤ ae.2)) := by
  intro ns
  induction ns with
  | nil =>
    intro best
    refine ⟨by simp [bestFold], fun a e n h => ?_⟩
    rw [bestFold] at h
    refine ⟨Or.inl h, fun b0 hb0 => ?_, by simp⟩
    simp only [h, Option.mem_def, Option.some.injEq] at hb0
    simp [← hb0]
  | cons n ns ih =>
    intro best
    simp only [bestFold]
    cases hfn : f n with
    | none =>
      dsimp only
      refine ⟨?_, fun a e n2 h => ?_⟩
      · rw [(ih best).1]
        simp only [List.forall_mem_cons, hfn]
        tauto
      · obtain ⟨h1, h2, h3⟩ := (ih best).2 a e n2 h
        refine ⟨h1.imp_right (fun hh => ⟨List.mem_cons_of_mem _ hh.1, hh.2⟩),
          h2, ?_⟩
        intro m hm ae hae
        rcases List.mem_cons.mp hm with rfl | hm2
        · rw [hfn] at hae; cases hae
        · exact h3 m hm2 ae hae
    | some ae =>
      dsimp only
      by_cases hbet : ∀ b0 ∈ best, ae.2 < b0.2.1
      · rw [if_pos hbet]
        refine ⟨?_, fun a e n2 h => ?_⟩
        · constructor
          · intro h
            exact absurd ((ih _).1.mp h).1 (by simp)
          · rintro ⟨-, hall⟩
            exact absurd (hall n (List.mem_cons_self n ns)) (by simp [hfn])
        · obtain ⟨h1, h2, h3⟩ := (ih _).2 a e n2 h
          have hen : e ≤ ae.2 := h2 (ae.1 * n / cc, ae.2, n) rfl
          refine ⟨?_, fun b0 hb0 => le_trans hen (le_of_lt (hbet b0 hb0)), ?_⟩
          · rcases h1 with heq | ⟨hmem, hex⟩
            · simp only [Option.some.injEq, Prod.mk.injEq] at heq
              obtain ⟨ha, he, hn2⟩ := heq
              subst hn2
              exact Or.inr ⟨List.mem_cons_self n ns, ae, hfn, ha.symm, he.symm⟩
            · exact Or.inr ⟨List.mem_cons_of_mem _ hmem, hex⟩
          · intro m hm ae2 hae2
            rcases List.mem_cons.mp hm with rfl | hm2
            · rw [hfn] at hae2
              injection hae2 with hae3
              rw [← hae3]
              exact hen
            · exact h3 m hm2 ae2 hae2
      · rw [if_neg hbet]
        push_neg at hbet
        obtain ⟨b0, hb0mem, hb0⟩ := hbet
        refine ⟨?_, fun a e n2 h => ?_⟩
        · constructor
          · intro h
            have hbn := ((ih best).1.mp h).1
            rw [hbn] at hb0mem
            cases hb0mem
          · rintro ⟨hbn, -⟩
            rw [hbn] at hb0mem
            cases hb0mem
        · obtain ⟨h1, h2, h3⟩ := (ih best).2 a e n2 h
          refine ⟨h1.imp_right (fun hh => ⟨List.mem_cons_of_mem _ hh.1, hh.2⟩),
            h2, ?_⟩
          intro m hm ae2 hae2
          rcases List.mem_cons.mp hm with rfl | hm2
          · rw [hfn] at hae2
            injection hae2 with hae3
            rw [← hae3]
            exact le_trans (h2 b0 hb0mem) hb0
          · exact h3 m hm2 ae2 hae2

/-- C7: optimize sets energy_per_op to the lowest energy among the feasible
candidate ADC counts, skipping candidates whose model evaluation fails
without aborting the search; with exactly one feasible candidate that
candidate is selected, and with zero feasible candidates the result
reports no design (None attributes, or the could-not-generate failure when
already the first loop finds no candidate) instead of a default design.
The positivity hypotheses keep the embedding on the domain where Python's
math.log is defined. -/
theorem c7_optimize_min_energy (r : ADCRequest) (s0 : ModelState)
    (hreq : requestValid r) (hch : 1 ≤ r.channel_count)
    (htp : 0 < optThroughput r) (htech : 0 < r.tech)
    (heb : ∀ b0 ∈ r.energy_budget, 0 < b0) :
    (optMinmax r s0 = none → optimize r s0 = none) ∧
    (∀ res sfin, optimize r s0 = some (res, sfin) →
      ∃ mn mx, optMinmax r s0 = some (mn, mx) ∧
        ((res.energy_per_op = none ↔
            feasibleCandidates r (optThroughput r) (optTargetArea r mn mx)
              (optPreludeState r s0) = []) ∧
         (feasibleCandidates r (optThroughput r) (optTargetArea r mn mx)
              (optPreludeState r s0) = [] →
            res.adc_count = none ∧ res.area_per_channnel = none) ∧
         (∀ e, res.energy_per_op = some e →
            (∃ n ∈ feasibleCandidates r (optThroughput r)
                (optTargetArea r mn mx) (optPreludeState r s0), ∃ ae,
              evalCandidate r (optThroughput r) (optTargetArea r mn mx)
                  (optPreludeState r s0) n = some ae ∧ e = ae.2 ∧
              res.adc_count = some n ∧
              res.area_per_channnel = some (ae.1 * n / r.channel_count)) ∧
            (∀ m ∈ feasibleCandidates r (optThroughput r)
                (optTargetArea r mn mx) (optPreludeState r s0), ∀ ae,
              evalCandidate r (optThroughput r) (optTargetArea r mn mx)
                  (optPreludeState r s0) m = some ae → e ≤ ae.2)) ∧
         (∀ n0, feasibleCandidates r (optThroughput r) (optTargetArea r mn mx)
              (optPreludeState r s0) = [n0] →
            ∃ ae, evalCandidate r (optThroughput r) (optTargetArea r mn mx)
                (optPreludeState r s0) n0 = some ae ∧
              res.adc_count = some n0 ∧ res.energy_per_op = some ae.2))) := by
  simp only [optMinmax, optPreludeState]
  constructor
  · intro hmm2
    rw [optimize]
    dsimp only
    by_cases hsp : (set_design_params s0 (some r.bits) (some r.tech) none
        r.allow_extrapolation).2 = true
    · rw [if_pos hsp, hmm2]
    · rw [if_neg hsp]
  · intro res sfin hopt
    rw [optimize] at hopt
    dsimp only at hopt
    by_cases hsp : (set_design_params s0 (some r.bits) (some r.tech) none
        r.allow_extrapolation).2 = true
    case neg =>
      rw [if_neg hsp] at hopt
      exact Option.noConfusion hopt
    rw [if_pos hsp] at hopt
    cases hmm : (minmax_loop r (optThroughput r) (n_adc_to_try r)
        (set_design_params s0 (some r.bits) (some r.tech) none
          r.allow_extrapolation).1 none).2 with
    | none =>
      rw [hmm] at hopt
      exact Option.noConfusion hopt
    | some mnmx =>
      rw [hmm] at hopt
      dsimp only at hopt
      rw [Option.some.injEq, Prod.mk.injEq] at hopt
      obtain ⟨hres, hsfin⟩ := hopt
      subst hres
      refine ⟨mnmx.1, mnmx.2, rfl, ?_⟩
      have hSb : ((set_design_params s0 (some r.bits) (some r.tech) none
          r.allow_extrapolation).1).bits = some r.bits :=
        (sdp_assigns s0 r.bits r.tech r.allow_extrapolation).2.1
      have hSt : ((set_design_params s0 (some r.bits) (some r.tech) none
          r.allow_extrapolation).1).tech = some (Real.log r.tech) :=
        (sdp_assigns s0 r.bits r.tech r.allow_extrapolation).2.2
      have hkeeps := minmax_loop_keeps r (optThroughput r) (n_adc_to_try r)
        ((set_design_params s0 (some r.bits) (some r.tech) none
          r.allow_extrapolation).1) none
      have hfold : (search_loop r (optThroughput r)
            (optTargetArea r mnmx.1 mnmx.2) (n_adc_to_try r).dedup
            ((minmax_loop r (optThroughput r) (n_adc_to_try r)
              (set_design_params s0 (some r.bits) (some r.tech) none
                r.allow_extrapolation).1 none).1) none).2
          = bestFold (evalCandidate r (optThroughput r)
              (optTargetArea r mnmx.1 mnmx.2)
              ((set_design_params s0 (some r.bits) (some r.tech) none
                r.allow_extrapolation).1))
              r.channel_count (n_adc_to_try r).dedup none :=
        search_loop_eq_bestFold r (optThroughput r)
          (optTargetArea r mnmx.1 mnmx.2)
          ((set_design_params s0 (some r.bits) (some r.tech) none
            r.allow_extrapolation).1) r.bits (Real.log r.tech) hSb hSt
          (n_adc_to_try r).dedup _ none hkeeps.1 (hkeeps.2.1.trans hSb)
          (hkeeps.2.2.trans hSt)
      have hspec := bestFold_spec (evalCandidate r (optThroughput r)
        (optTargetArea r mnmx.1 mnmx.2)
        ((set_design_params s0 (some r.bits) (some r.tech) none
          r.allow_extrapolation).1)) r.channel_count (n_adc_to_try r).dedup none
      have hnone : (bestFold (evalCandidate r (optThroughput r)
            (optTargetArea r mnmx.1 mnmx.2)
            ((set_design_params s0 (some r.bits) (some r.tech) none
              r.allow_extrapolation).1))
            r.channel_count (n_adc_to_try r).dedup none = none)
          ↔ feasibleCandidates r (optThroughput r)
              (optTargetArea r mnmx.1 mnmx.2)
              ((set_design_params s0 (some r.bits) (some r.tech) none
                r.allow_extrapolation).1) = [] := by
        rw [hspec.1, feasibleCandidates, List.filter_eq_nil_iff]
        constructor
        · intro h n hn
          simp [h.2 n hn]
        · intro h
          refine ⟨rfl, fun n hn => ?_⟩
          have hh := h n hn
          simpa [Option.not_isSome_iff_eq_none] using hh
      refine ⟨?_, ?_, ?_, ?_⟩
      · simp only [OptResult.energy_per_op]
        rw [hfold, Option.map_eq_none']
        exact hnone
      · intro hfe
        constructor
        · simp only [OptResult.adc_count]
          rw [hfold, Option.map_eq_none']
          exact hnone.mpr hfe
        · simp only [OptResult.area_per_channnel]
          rw [hfold, Option.map_eq_none']
          exact hnone.mpr hfe
      · intro e he
        simp only [OptResult.energy_per_op] at he
        rw [hfold] at he
        obtain ⟨trip, htrip, htripe⟩ := Option.map_eq_some'.mp he
        obtain ⟨h1, -, h3⟩ := hspec.2 trip.1 trip.2.1 trip.2.2 htrip
        rcases h1 with hbad | ⟨hmem, ae, hae, ha, he2⟩
        · exact Option.noConfusion hbad
        constructor
        · refine ⟨trip.2.2, ?_, ae, hae, ?_, ?_, ?_⟩
          · rw [feasibleCandidates, List.mem_filter]
            exact ⟨hmem, by simp [hae]⟩
          · rw [← htripe, he2]
          · simp only [OptResult.adc_count]
            rw [hfold, htrip]
            rfl
          · simp only [OptResult.area_per_channnel]
            rw [hfold, htrip]
            exact congrArg some ha
        · intro m hm ae2 hae2
          rw [feasibleCandidates, List.mem_filter] at hm
          have := h3 m hm.1 ae2 hae2
          rw [← htripe]
          exact this
      · intro n0 hfeq
        have hne : (bestFold (evalCandidate r (optThroughput r)
              (optTargetArea r mnmx.1 mnmx.2)
              ((set_design_params s0 (some r.bits) (some r.tech) none
                r.allow_extrapolation).1))
              r.channel_count (n_adc_to_try r).dedup none) ≠ none := by
          intro hcontra
          rw [hnone, hfeq] at hcontra
          exact List.noConfusion hcontra
        obtain ⟨trip, htrip⟩ := Option.ne_none_iff_exists'.mp hne
        obtain ⟨h1, -, -⟩ := hspec.2 trip.1 trip.2.1 trip.2.2 htrip
        rcases h1 with hbad | ⟨hmem, ae, hae, ha, he2⟩
        · exact Option.noConfusion hbad
        have hn0 : trip.2.2 = n0 := by
          have : trip.2.2 ∈ feasibleCandidates r (optThroughput r)
              (optTargetArea r mnmx.1 mnmx.2)
              ((set_design_params s0 (some r.bits) (some r.tech) none
                r.allow_extrapolation).1) := by
            rw [feasibleCandidates, List.mem_filter]
            exact ⟨hmem, by simp [hae]⟩
          rw [hfeq, List.mem_singleton] at this
          exact this
        refine ⟨ae, by rw [← hn0]; exact hae, ?_, ?_⟩
        · simp only [OptResult.adc_count]
          rw [hfold, htrip]
          exact congrArg some hn0
        · simp only [OptResult.energy_per_op]
          rw [hfold, htrip]
          exact congrArg some he2

/-- Bounds on log 32 used by the example run. -/
theorem example_log32_bounds : (-1000 : ℝ) ≤ Real.log 32 ∧ Real.log 32 ≤ 1000 := by
  constructor
  · have h := Real.log_nonneg (show (1:ℝ) ≤ 32 by norm_num)
    linarith
  · have h := Real.log_le_sub_one_of_pos (show (0:ℝ) < 32 by norm_num)
    linarith

/-- The example run's prelude: bits and tech are stored, the bounds stay
unset because no frequency is known yet. -/
theorem example_prelude :
    set_design_params exampleState (some 8) (some 32) none false
      = (examplePreState, true) := by
  obtain ⟨hge, hle⟩ := example_log32_bounds
  simp only [exampleState, initState, exampleDict]
  unfold set_design_params
  dsimp only
  rw [if_pos ⟨Or.inr (Or.inr ⟨by norm_num, by norm_num⟩),
    Or.inr (Or.inr ⟨by simpa using hge, by simpa using hle⟩), Or.inl rfl⟩]
  rw [if_pos (Or.inr (Or.inr rfl))]
  simp only [examplePreState, exampleDict]

/-- The example run's candidate frequency: one ADC on one channel runs at
the full throughput. -/
theorem example_candFreq : candFreq exampleRequest 1 1 = 1 := by
  rw [candFreq]
  rw [if_neg (by norm_num [exampleRequest])]
  norm_num [exampleRequest]

/-- Setting the example run's candidate frequency of one op per second
collapses every bound of the all-zero dictionary to zero. -/
theorem example_set_freq (s : ModelState) (hd : s.dict = exampleDict)
    (hb : s.bits = some 8) (ht : s.tech = some (Real.log 32)) :
    set_design_params s none none (some 1) false = (exampleRunState, true) := by
  rw [sdp_freq_some s 1 8 (Real.log 32) hb ht, hd]
  rw [if_pos (by norm_num [exampleDict, Real.log_one])]
  norm_num [exampleRunState, exampleDict, area_offset, energy_offset,
    Real.log_one]

/-- One step of the example run's first loop. -/
theorem example_minmax_step (s : ModelState) (hd : s.dict = exampleDict)
    (hb : s.bits = some 8) (ht : s.tech = some (Real.log 32)) :
    design_minmax_area s none none (some (candFreq exampleRequest 1 1)) false
      = (exampleRunState, some (1, 1)) := by
  rw [example_candFreq]
  unfold design_minmax_area
  dsimp only
  rw [example_set_freq s hd hb ht]
  dsimp only
  rw [if_pos rfl]
  norm_num [exampleRunState, Real.exp_zero]

/-- The example run's first loop over its two identical candidates. -/
theorem example_minmax_loop :
    minmax_loop exampleRequest 1 [1, 1] examplePreState none
      = (exampleRunState, some (1, 1)) := by
  simp only [minmax_loop]
  rw [example_minmax_step examplePreState rfl rfl rfl]
  dsimp only
  rw [example_minmax_step exampleRunState rfl rfl rfl]
  dsimp only
  norm_num

/-- The example request tries the single shared candidate twice (once per
sharing direction). -/
theorem example_candidates : n_adc_to_try exampleRequest = [1, 1] := by
  rw [n_adc_to_try]
  norm_num [exampleRequest, List.range'_one, Int.ceil_one]

/-- Deduplicating the example candidates. -/
theorem example_dedup : ([(1:ℝ), 1]).dedup = [1] := by
  rw [List.dedup_cons_of_mem (by simp), List.dedup_cons_of_not_mem (by simp),
    List.dedup_nil]

/-- The example target area: the whole range is the single achievable
point. -/
theorem example_target : optTargetArea exampleRequest 1 1 = 1 := by
  rw [optTargetArea]
  norm_num [exampleRequest, Real.log_one, Real.exp_zero]

/-- Picking a design in the example run: the budget binds exactly at the
collapsed bounds, giving unit area and unit energy. -/
theorem example_pick :
    pick_design exampleRunState (some (1 / 1)) none = some (1, 1) := by
  unfold pick_design
  dsimp only
  rw [if_neg (by norm_num : ¬((1:ℝ) / 1 = 0))]
  rw [if_neg (by simp [exampleRunState] : ¬(exampleRunState.minArea = none))]
  simp only [exampleRunState, exampleDict]
  rw [if_pos ?_]
  · norm_num [Real.log_one, Real.exp_zero]
  · constructor
    · right
      rw [isclose]
      norm_num [Real.log_one]
    · right
      rw [isclose]
      norm_num [Real.log_one]

/-- The example run's second loop selects the single candidate with unit
energy. -/
theorem example_search :
    search_loop exampleRequest 1 1 [1] exampleRunState none
      = (exampleRunState, some (1, 1, 1)) := by
  simp only [search_loop]
  rw [example_candFreq, example_set_freq exampleRunState rfl rfl rfl]
  dsimp only
  rw [if_pos rfl]
  rw [show exampleRequest.energy_budget = none from rfl]
  rw [example_pick]
  dsimp only
  rw [if_pos (by simp)]
  rw [show exampleRequest.channel_count = (1:ℝ) from rfl]
  norm_num

/-- End-to-end evaluation of the embedded optimize on the example request
and model: it returns unit area per channel, unit energy per op and a
single ADC, leaving the model at the run state. -/
theorem optimize_example_run :
    optimize exampleRequest exampleState
      = some (⟨some 1, some 1, some 1⟩, exampleRunState) := by
  rw [optimize]
  dsimp only
  have htp : optThroughput exampleRequest = 1 := by
    rw [optThroughput]
    rw [if_neg (by norm_num [exampleRequest])]
    rfl
  rw [htp, show exampleRequest.bits = (8:ℝ) from rfl,
    show exampleRequest.tech = (32:ℝ) from rfl,
    show exampleRequest.allow_extrapolation = false from rfl,
    example_prelude]
  dsimp only
  rw [if_pos rfl, example_candidates, example_minmax_loop]
  dsimp only
  rw [example_target, example_dedup, example_search]
  rfl

/-- Witness for C7 at a concrete request and model state: the hypotheses
hold, and the characterization is exercised on an actual optimize run that
returns a design (so the main conjunct is not vacuous). -/
theorem c7_optimize_min_energy_witness :
    requestValid exampleRequest ∧ (1 : ℝ) ≤ exampleRequest.channel_count ∧
    0 < optThroughput exampleRequest ∧ (0 : ℝ) < exampleRequest.tech ∧
    (∀ b0 ∈ exampleRequest.energy_budget, 0 < b0) ∧
    (optMinmax exampleRequest exampleState = none →
      optimize exampleRequest exampleState = none) ∧
    (∃ mn mx, optMinmax exampleRequest exampleState = some (mn, mx) ∧
      ((some (1:ℝ) = none ↔
          feasibleCandidates exampleRequest (optThroughput exampleRequest)
            (optTargetArea exampleRequest mn mx)
            (optPreludeState exampleRequest exampleState) = []) ∧
       (feasibleCandidates exampleRequest (optThroughput exampleRequest)
            (optTargetArea exampleRequest mn mx)
            (optPreludeState exampleRequest exampleState) = [] →
          some (1:ℝ) = none ∧ some (1:ℝ) = none) ∧
       (∀ e, some (1:ℝ) = some e →
          (∃ n ∈ feasibleCandidates exampleRequest (optThroughput exampleRequest)
              (optTargetArea exampleRequest mn mx)
              (optPreludeState exampleRequest exampleState), ∃ ae,
            evalCandidate exampleRequest (optThroughput exampleRequest)
                (optTargetArea exampleRequest mn mx)
                (optPreludeState exampleRequest exampleState) n = some ae ∧
            e = ae.2 ∧ some (1:ℝ) = some n ∧
            some (1:ℝ) = some (ae.1 * n / exampleRequest.channel_count)) ∧
          (∀ m ∈ feasibleCandidates exampleRequest (optThroughput exampleRequest)
              (optTargetArea exampleRequest mn mx)
              (optPreludeState exampleRequest exampleState), ∀ ae,
            evalCandidate exampleRequest (optThroughput exampleRequest)
                (optTargetArea exampleRequest mn mx)
                (optPreludeState exampleRequest exampleState) m = some ae →
            e ≤ ae.2)) ∧
       (∀ n0, feasibleCandidates exampleRequest (optThroughput exampleRequest)
            (optTargetArea exampleRequest mn mx)
            (optPreludeState exampleRequest exampleState) = [n0] →
          ∃ ae, evalCandidate exampleRequest (optThroughput exampleRequest)
              (optTargetArea exampleRequest mn mx)
              (optPreludeState exampleRequest exampleState) n0 = some ae ∧
            some (1:ℝ) = some n0 ∧ some (1:ℝ) = some ae.2))) := by
  have p1 : requestValid exampleRequest := by
    refine ⟨Or.inr ?_, ?_⟩ <;> norm_num [exampleRequest]
  have p2 : (1 : ℝ) ≤ exampleRequest.channel_count := by
    norm_num [exampleRequest]
  have p3 : 0 < optThroughput exampleRequest := by
    rw [optThroughput]
    norm_num [exampleRequest]
  have p4 : (0 : ℝ) < exampleRequest.tech := by
    norm_num [exampleRequest]
  have p5 : ∀ b0 ∈ exampleRequest.energy_budget, 0 < b0 := by
    simp [exampleRequest]
  refine ⟨p1, p2, p3, p4, p5,
    (c7_optimize_min_energy exampleRequest exampleState p1 p2 p3 p4 p5).1, ?_⟩
  exact (c7_optimize_min_energy exampleRequest exampleState p1 p2 p3 p4 p5).2
    ⟨some 1, some 1, some 1⟩ exampleRunState optimize_example_run

end ADC
